import Mathlib

/-!
Shallow embedding of the risk-bounded position-sizing and trade-simulation
core of the trading-system repository, together with theorems checking the
specification claims against it.

Conventions of the embedding:
* Python floats are modelled as exact rationals (ℚ).
* Python ints are modelled as ℤ (or ℕ for indices and counts).
* code that can raise (division by zero) returns Option.
* Python `int(x)` (truncation toward zero) is `truncQ`.
* Python `round(x, 8)` (round half to even) is `round8`.
* timestamps are modelled as bar indices / tick counters (ℕ).
-/

/-- Python `int(q)`: truncation of a rational toward zero. -/
def truncQ (q : ℚ) : ℤ := Int.tdiv q.num q.den

/-- Python `round` to the nearest integer, ties to even (banker's rounding),
on an exact rational. -/
def roundHalfEven (x : ℚ) : ℤ :=
  let n : ℤ := ⌊x⌋
  let r : ℚ := x - n
  if r < 1/2 then n
  else if 1/2 < r then n + 1
  else if Even n then n else n + 1

/-- Python `round(x, 8)` on an exact rational. -/
def round8 (x : ℚ) : ℚ := (roundHalfEven (x * 100000000) : ℚ) / 100000000

/-- Helper for the Python substring test: does the needle start the haystack? -/
def charsStartWith : List Char → List Char → Bool
  | [], _ => true
  | _ :: _, [] => false
  | a :: as, b :: bs => a = b && charsStartWith as bs

/-- Helper for the Python substring test: does the needle occur in the haystack? -/
def charsContain (needle : List Char) : List Char → Bool
  | [] => needle.isEmpty
  | c :: rest => charsStartWith needle (c :: rest) || charsContain needle rest

/-- Python `needle in hay` on strings (substring occurrence). -/
def strHas (hay needle : String) : Bool := charsContain needle.data hay.data

/-! ## src/portfolio/risk_config.py -/

/-- RiskConfig (src/portfolio/risk_config.py): the constructor assigns the six
parameters to fields and performs no validation of any kind. -/
structure RiskConfig where
  risk_per_trade : ℚ
  stop_loss_pct : ℚ
  take_profit_pct : ℚ
  max_position_size : ℤ
  max_positions_open : ℤ
  max_daily_loss_pct : ℚ
deriving DecidableEq

/-- Default parameter values of RiskConfig.__init__. -/
def RiskConfig.defaults : RiskConfig :=
  { risk_per_trade := 2/100
    stop_loss_pct := 5/100
    take_profit_pct := 10/100
    max_position_size := 100
    max_positions_open := 3
    max_daily_loss_pct := 5/100 }

/-! ## src/portfolio/position_manager.py -/

/-- Position record created by PositionManager.open_position. -/
structure Position where
  symbol : String
  entry_price : ℚ
  entry_date : ℕ
  qty : ℚ
  stop_loss_price : ℚ
  take_profit_price : ℚ
deriving DecidableEq

/-- Mutable state of a PositionManager instance. -/
structure PositionManager where
  config : RiskConfig
  open_positions : List Position
  daily_pnl : ℚ
deriving DecidableEq

/-- PositionManager.calculate_position_size:
stop_loss_distance = entry_price * stop_loss_pct; if it is ≤ 0 return 0;
otherwise min(int(risk_amount / stop_loss_distance), max_position_size). -/
def PositionManager.calculate_position_size
    (pm : PositionManager) (account_equity entry_price : ℚ) : ℤ :=
  let stop_loss_distance := entry_price * pm.config.stop_loss_pct
  if stop_loss_distance ≤ 0 then 0
  else
    let risk_amount := account_equity * pm.config.risk_per_trade
    let position_size := risk_amount / stop_loss_distance
    min (truncQ position_size) pm.config.max_position_size

/-- PositionManager.open_position: derives stop and take-profit prices and
unconditionally appends the new position; returns the position and the new
manager state. -/
def PositionManager.open_position
    (pm : PositionManager) (symbol : String) (entry_price qty : ℚ)
    (entry_date : ℕ) : Position × PositionManager :=
  let position : Position :=
    { symbol := symbol
      entry_price := entry_price
      entry_date := entry_date
      qty := qty
      stop_loss_price := entry_price * (1 - pm.config.stop_loss_pct)
      take_profit_price := entry_price * (1 + pm.config.take_profit_pct) }
  (position, { pm with open_positions := pm.open_positions ++ [position] })

/-- PositionManager.can_open_position. -/
def PositionManager.can_open_position
    (pm : PositionManager) (account_equity : ℚ) : Bool :=
  if (pm.open_positions.length : ℤ) ≥ pm.config.max_positions_open then false
  else if pm.daily_pnl < -(account_equity * pm.config.max_daily_loss_pct) then false
  else true

/-- Loop of PositionManager.close_position: the pnl realized is that of the
first position whose symbol matches (the Python loop breaks after the first
match); no match realizes nothing. -/
def firstMatchPnl (positions : List Position) (symbol : String) (exit_price : ℚ) : ℚ :=
  match positions with
  | [] => 0
  | p :: rest =>
    if p.symbol = symbol then (exit_price - p.entry_price) * p.qty
    else firstMatchPnl rest symbol exit_price

/-- PositionManager.close_position: adds the first matching position's pnl to
daily_pnl and removes every position with the given symbol. -/
def PositionManager.close_position
    (pm : PositionManager) (symbol : String) (exit_price : ℚ) : PositionManager :=
  { pm with
    daily_pnl := pm.daily_pnl + firstMatchPnl pm.open_positions symbol exit_price
    open_positions := pm.open_positions.filter (fun p => p.symbol ≠ symbol) }

/-- PositionManager.get_num_open_positions. -/
def PositionManager.get_num_open_positions (pm : PositionManager) : ℕ :=
  pm.open_positions.length

/-! ## src/backtesting/backtest_result.py -/

/-- Trade record appended by BacktestEngine.run (a Python dict). Timestamps
are modelled as bar indices. -/
structure Trade where
  symbol : String
  entry_price : ℚ
  exit_price : ℚ
  qty : ℚ
  pnl : ℚ
  entry_time : ℕ
  exit_time : ℕ
  commission : ℚ
  slippage : ℚ
deriving DecidableEq

/-- BacktestResult construction data. The equity curve is the list of the
"equity" values of its one-key dict entries. -/
structure BacktestResult where
  symbol : String
  starting_cash : ℚ
  trades : List Trade
  bars_processed : ℕ
  equity_curve : List ℚ
deriving DecidableEq

/-- BacktestResult.total_trades. -/
def BacktestResult.total_trades (r : BacktestResult) : ℕ := r.trades.length

/-- BacktestResult.total_pnl. -/
def BacktestResult.total_pnl (r : BacktestResult) : ℚ :=
  (r.trades.map Trade.pnl).sum

/-- BacktestResult.total_commission. -/
def BacktestResult.total_commission (r : BacktestResult) : ℚ :=
  (r.trades.map Trade.commission).sum

/-- BacktestResult.win_rate: guarded to return 0.0 on an empty trade list, so
the division is by a nonzero count. -/
def BacktestResult.win_rate (r : BacktestResult) : ℚ :=
  if r.trades.isEmpty then 0
  else ((r.trades.filter (fun t => 0 < t.pnl)).length : ℚ) / (r.trades.length : ℚ)

/-- BacktestResult.num_wins. -/
def BacktestResult.num_wins (r : BacktestResult) : ℕ :=
  (r.trades.filter (fun t => 0 < t.pnl)).length

/-- BacktestResult.num_losses. -/
def BacktestResult.num_losses (r : BacktestResult) : ℕ :=
  (r.trades.filter (fun t => t.pnl < 0)).length

/-- BacktestResult.avg_win (guarded division). -/
def BacktestResult.avg_win (r : BacktestResult) : ℚ :=
  let wins := (r.trades.filter (fun t => 0 < t.pnl)).map Trade.pnl
  if wins.isEmpty then 0 else wins.sum / (wins.length : ℚ)

/-- BacktestResult.avg_loss (guarded division). -/
def BacktestResult.avg_loss (r : BacktestResult) : ℚ :=
  let losses := (r.trades.filter (fun t => t.pnl < 0)).map Trade.pnl
  if losses.isEmpty then 0 else losses.sum / (losses.length : ℚ)

/-- BacktestResult.return_pct: (total_pnl / starting_cash) * 100 with no
guard; the Python division raises ZeroDivisionError when starting_cash is 0,
modelled as none. -/
def BacktestResult.return_pct (r : BacktestResult) : Option ℚ :=
  if r.starting_cash = 0 then none
  else some (r.total_pnl / r.starting_cash * 100)

/-- Loop of BacktestResult.max_drawdown: walks the equity values keeping the
running peak (seeded with the first value) and the max drawdown so far; the
Python division (peak - equity) / peak raises when the peak is zero, modelled
as none. -/
def drawdownLoop : List ℚ → ℚ → ℚ → Option ℚ
  | [], _, max_dd => some max_dd
  | equity :: rest, peak, max_dd =>
    let peak' := if equity > peak then equity else peak
    if peak' = 0 then none
    else drawdownLoop rest peak' (max max_dd ((peak' - equity) / peak'))

/-- BacktestResult.max_drawdown: 0.0 on an empty curve, otherwise the loop
seeded with the first equity value and a running maximum of 0.0. -/
def BacktestResult.max_drawdown (r : BacktestResult) : Option ℚ :=
  match r.equity_curve with
  | [] => some 0
  | e0 :: _ => drawdownLoop r.equity_curve e0 0

/-- Numeric metrics of BacktestResult.summary, in construction order.
Building the Python dict evaluates return_pct (and later max_drawdown), so
summary raises whenever either of them does. -/
structure SummaryMetrics where
  total_pnl : ℚ
  return_pct : ℚ
  win_rate : ℚ
  num_wins : ℕ
  num_losses : ℕ
  avg_win : ℚ
  avg_loss : ℚ
  max_drawdown : ℚ
  total_commission : ℚ
deriving DecidableEq

/-- BacktestResult.summary, restricted to its numeric metrics. -/
def BacktestResult.summary (r : BacktestResult) : Option SummaryMetrics :=
  match r.return_pct with
  | none => none
  | some rp =>
    match r.max_drawdown with
    | none => none
    | some dd =>
      some
        { total_pnl := r.total_pnl
          return_pct := rp
          win_rate := r.win_rate
          num_wins := r.num_wins
          num_losses := r.num_losses
          avg_win := r.avg_win
          avg_loss := r.avg_loss
          max_drawdown := dd
          total_commission := r.total_commission }

/-- Specification-side running peaks drawdown maximum, written from the spec
words: the maximum over the equity sequence of
(running_peak - equity) / running_peak where running_peak is the running
maximum seen so far; 0.0 for an empty sequence. The peak argument carries the
maximum of the values already seen. -/
def specDrawdownFrom : List ℚ → ℚ → ℚ
  | [], _ => 0
  | equity :: rest, peak =>
    let p := max peak equity
    max ((p - equity) / p) (specDrawdownFrom rest p)

/-- Specification-side max_drawdown ("Modelled from the spec" formula of
claim C7, for comparison with the code definition). -/
def specMaxDrawdown (eq : List ℚ) : ℚ :=
  match eq with
  | [] => 0
  | e0 :: _ => specDrawdownFrom eq e0

/-! ## src/backtesting/backtest_engine.py -/

/-- Constructor parameters of BacktestEngine that the run loop reads. The
risk configuration only enters through risk_per_trade. -/
structure BTConfig where
  risk_per_trade : ℚ
  slippage_pct : ℚ
  commission_stock_fixed : ℚ
  commission_crypto_pct : ℚ
deriving DecidableEq

/-- Crypto test of BacktestEngine.run: the symbol contains "USD" or "/". -/
def btIsCrypto (symbol : String) : Bool := strHas symbol "USD" || strHas symbol "/"

/-- Commission of one fill in BacktestEngine.run: percentage of the notional
for crypto symbols, fixed per-trade amount otherwise. -/
def btCommission (cfg : BTConfig) (symbol : String) (notional : ℚ) : ℚ :=
  if btIsCrypto symbol then notional * cfg.commission_crypto_pct
  else cfg.commission_stock_fixed

/-- Running state of BacktestEngine.run: local variables cash / position_qty
/ trades / equity_curve together with the instance fields self.entry_price and
self.entry_time (which survive across runs of the same engine object). -/
structure RunState where
  cash : ℚ
  qty : ℚ
  entry_price : Option ℚ
  entry_time : Option ℕ
  trades : List Trade
  equity : List ℚ
deriving DecidableEq

/-- Buy branch of BacktestEngine.run, returning (new cash, new qty):
qty = cash * risk_per_trade / price, slipped fill price, commission on the
notional; if total cost exceeds cash the qty is rescaled by cash / total_cost
and the notional and total cost are recomputed, but the commission is not. -/
def buyUpdate (cfg : BTConfig) (symbol : String) (cash price : ℚ) : ℚ × ℚ :=
  let qty := cash * cfg.risk_per_trade / price
  let slip_price := price * (1 + cfg.slippage_pct)
  let notional := qty * slip_price
  let commission := btCommission cfg symbol notional
  let total_cost := notional + commission
  let qty' := if total_cost > cash then qty * (cash / total_cost) else qty
  let notional' := if total_cost > cash then qty' * slip_price else notional
  let total_cost' := notional' + commission
  (cash - total_cost', qty')

/-- Trade dict built by the sell branch of BacktestEngine.run when selling
qty units at bar index i with raw price `price`, having entered at
entry_price / entry_time. -/
def mkSellTrade (cfg : BTConfig) (symbol : String) (entry_price : ℚ)
    (entry_time : ℕ) (qty price : ℚ) (i : ℕ) : Trade :=
  let slip_price := price * (1 - cfg.slippage_pct)
  let notional := qty * slip_price
  let commission := btCommission cfg symbol notional
  { symbol := symbol
    entry_price := entry_price
    exit_price := slip_price
    qty := qty
    pnl := (slip_price - entry_price) * qty - commission
    entry_time := entry_time
    exit_time := i
    commission := commission
    slippage := cfg.slippage_pct }

/-- Sell branch of BacktestEngine.run at bar index i: credits the slipped
notional minus commission to cash, appends the trade and zeroes the
position. The entry fields are read with a 0 default (they are always set in
states reachable from a fresh run, where qty > 0 implies an entry exists). -/
def sellUpdate (cfg : BTConfig) (symbol : String) (st : RunState)
    (price : ℚ) (i : ℕ) : RunState :=
  let slip_price := price * (1 - cfg.slippage_pct)
  let notional := st.qty * slip_price
  let commission := btCommission cfg symbol notional
  let t := mkSellTrade cfg symbol (st.entry_price.getD 0) (st.entry_time.getD 0)
    st.qty price i
  { st with
    cash := st.cash + notional - commission
    qty := 0
    entry_price := none
    entry_time := none
    trades := st.trades ++ [t] }

/-- One iteration of the bar loop of BacktestEngine.run at bar index i:
evaluate the strategy on the prefix window bars[0..i], trade, then append the
mark-to-market equity point. -/
def barStep (cfg : BTConfig) (symbol : String) (strat : List ℚ → String)
    (bars : List ℚ) (st : RunState) (i : ℕ) : RunState :=
  let window := bars.take (i + 1)
  let signal := strat window
  let price := bars.getD i 0
  let st' :=
    if signal = "buy" ∧ st.qty = 0 then
      let cq := buyUpdate cfg symbol st.cash price
      { st with
        cash := cq.1
        qty := cq.2
        entry_price := some (price * (1 + cfg.slippage_pct))
        entry_time := some i }
    else if signal = "sell" ∧ 0 < st.qty then
      sellUpdate cfg symbol st price i
    else st
  { st' with equity := st'.equity ++ [st'.cash + st'.qty * price] }

/-- The bar loop of BacktestEngine.run over a list of bar indices. -/
def runLoop (cfg : BTConfig) (symbol : String) (strat : List ℚ → String)
    (bars : List ℚ) : List ℕ → RunState → RunState
  | [], st => st
  | i :: rest, st => runLoop cfg symbol strat bars rest (barStep cfg symbol strat bars st i)

/-- Final force-close block of BacktestEngine.run: if a position is held and
an entry price is recorded, sell everything at the last bar with the usual
slippage and commission, but record the raw (unslipped) final price in the
trade dict's exit_price field. -/
def endClose (cfg : BTConfig) (symbol : String) (bars : List ℚ)
    (st : RunState) : RunState :=
  if 0 < st.qty ∧ st.entry_price ≠ none then
    let final_price := (bars.getLast?).getD 0
    let exit_price := final_price * (1 - cfg.slippage_pct)
    let notional := st.qty * exit_price
    let commission := btCommission cfg symbol notional
    let t := { mkSellTrade cfg symbol (st.entry_price.getD 0) (st.entry_time.getD 0)
        st.qty final_price (bars.length - 1) with
      exit_price := final_price }
    { st with
      cash := st.cash + notional - commission
      trades := st.trades ++ [t] }
  else st

/-- Initial run state: cash = starting_cash, flat position, and whatever the
engine instance currently holds in self.entry_price / self.entry_time. -/
def initState (starting_cash : ℚ) (entry0 : Option ℚ) (time0 : Option ℕ) : RunState :=
  { cash := starting_cash
    qty := 0
    entry_price := entry0
    entry_time := time0
    trades := []
    equity := [] }

/-- Bar indices processed by the loop: range(20, len(bars)). -/
def barIndices (bars : List ℚ) : List ℕ := (List.range bars.length).drop 20

/-- BacktestEngine.run on already-fetched bars (the close column, ascending):
empty data returns the empty-result sentinel; otherwise the 20-bar warm-up
loop runs, the force-close block executes, and the result is assembled. -/
def runBT (cfg : BTConfig) (symbol : String) (strat : List ℚ → String)
    (bars : List ℚ) (starting_cash : ℚ) (entry0 : Option ℚ)
    (time0 : Option ℕ) : BacktestResult :=
  if bars.isEmpty then
    { symbol := symbol, starting_cash := starting_cash, trades := [],
      bars_processed := 0, equity_curve := [] }
  else
    let st := endClose cfg symbol bars
      (runLoop cfg symbol strat bars (barIndices bars)
        (initState starting_cash entry0 time0))
    { symbol := symbol, starting_cash := starting_cash, trades := st.trades,
      bars_processed := bars.length, equity_curve := st.equity }

/-- Default constructor values of BacktestEngine relevant to the run loop,
with the default RiskConfig risk_per_trade. -/
def BTConfig.defaults : BTConfig :=
  { risk_per_trade := 2/100
    slippage_pct := 5/10000
    commission_stock_fixed := 0
    commission_crypto_pct := 25/10000 }

/-! ## src/brokers/alpaca_broker.py and src/engine/trading_engine.py -/

/-- Order side, set by AlpacaBroker.buy / AlpacaBroker.sell on the submitted
order. -/
inductive Side where
  | buy
  | sell
deriving DecidableEq

/-- Fields of the broker order object read by get_order_details. -/
structure OrderResp where
  filled_qty : ℚ
  filled_avg_price : ℚ
  status : String
  qty_requested : ℚ
deriving DecidableEq

/-- Result dict of AlpacaBroker.get_order_details. -/
structure OrderDetails where
  filled_qty : ℚ
  filled_price : ℚ
  status : String
  qty_requested : ℚ
deriving DecidableEq

/-- Crypto test of AlpacaBroker._is_crypto: the symbol contains "/". -/
def brokerIsCrypto (symbol : String) : Bool := strHas symbol "/"

/-- AlpacaBroker.get_order_details: for crypto symbols the filled quantity is
the broker-position delta (snapshot taken in buy/sell just before submission,
versus the position quantity after settlement), after minus before for buys
and before minus after for sells, rounded to 8 decimal places; this overrides
the order object's own filled_qty. For non-crypto symbols the order object's
filled_qty is used as is. -/
def get_order_details (resp : OrderResp) (side : Side) (symbol : String)
    (qty_before qty_after : ℚ) : OrderDetails :=
  if brokerIsCrypto symbol then
    let delta :=
      match side with
      | Side.buy => qty_after - qty_before
      | Side.sell => qty_before - qty_after
    { filled_qty := round8 delta
      filled_price := resp.filled_avg_price
      status := resp.status
      qty_requested := resp.qty_requested }
  else
    { filled_qty := resp.filled_qty
      filled_price := resp.filled_avg_price
      status := resp.status
      qty_requested := resp.qty_requested }

/-- Per-strategy mutable state touched by TradingEngine._execute_strategy:
the StrategyConfig fields it reads or writes and the shared PositionManager.
Timestamps are tick counters (ℕ). -/
structure StrategyConfigState where
  symbol : String
  strategy : List ℚ → String
  pm : PositionManager
  last_run : Option ℕ
  trades_this_session : ℕ
  pnl_this_session : ℚ

/-- External observations consumed by one cycle of
TradingEngine._execute_strategy: the fetched bar window (none models missing
data), the account value, the latest quote, the broker order responses and
the broker-position snapshots taken immediately before submitting and after
settling each order, and the current time. -/
structure CycleWorld where
  bars : Option (List ℚ)
  account_value : ℚ
  latest_price : ℚ
  buyResp : OrderResp
  buyQtyBefore : ℚ
  buyQtyAfter : ℚ
  sellResp : OrderResp
  sellQtyBefore : ℚ
  sellQtyAfter : ℚ
  now : ℕ

/-- TradingEngine._execute_strategy, one cycle: abort (leaving every field
unchanged) when the bar window is missing or empty; otherwise evaluate the
signal, run the buy or sell path, and finally set last_run to the current
time. The buy path gates on can_open_position and a positive size, submits,
reconciles the fill through get_order_details, and registers a Position only
when the reconciled filled quantity is positive. The sell path, taken when at
least one position is tracked, submits a close for the first tracked
position's quantity, reconciles, and on a positive reconciled quantity closes
the position and realizes pnl from the reconciled exit price and quantity. -/
def execute_strategy (cfg : StrategyConfigState) (w : CycleWorld) : StrategyConfigState :=
  match w.bars with
  | none => cfg
  | some bs =>
    if bs.length = 0 then cfg
    else
      let signal := cfg.strategy bs
      let current_positions := cfg.pm.get_num_open_positions
      let cfg' :=
        if signal = "buy" then
          if cfg.pm.can_open_position w.account_value then
            let position_size :=
              cfg.pm.calculate_position_size w.account_value w.latest_price
            if 0 < position_size then
              let d := get_order_details w.buyResp Side.buy cfg.symbol
                w.buyQtyBefore w.buyQtyAfter
              if 0 < d.filled_qty then
                { cfg with
                  pm := (cfg.pm.open_position cfg.symbol d.filled_price
                    d.filled_qty w.now).2
                  trades_this_session := cfg.trades_this_session + 1 }
              else cfg
            else cfg
          else cfg
        else if signal = "sell" then
          if 0 < current_positions then
            match cfg.pm.open_positions with
            | [] => cfg
            | position :: _ =>
              let d := get_order_details w.sellResp Side.sell cfg.symbol
                w.sellQtyBefore w.sellQtyAfter
              if 0 < d.filled_qty then
                let pnl := (d.filled_price - position.entry_price) * d.filled_qty
                { cfg with
                  pm := cfg.pm.close_position cfg.symbol d.filled_price
                  trades_this_session := cfg.trades_this_session + 1
                  pnl_this_session := cfg.pnl_this_session + pnl }
              else cfg
          else cfg
        else cfg
      { cfg' with last_run := some w.now }

/-! ## Concrete sample data and proof-side notions -/

/-- A 21-bar constant price series (just enough bars for one post-warm-up
iteration). -/
def bars21 : List ℚ := List.replicate 21 100

/-- Strategy double that always answers "buy". -/
def alwaysBuy : List ℚ → String := fun _ => "buy"

/-- Strategy double that always answers "hold". -/
def alwaysHold : List ℚ → String := fun _ => "hold"

/-- A PositionManager over the default RiskConfig with no open positions. -/
def pmDefault : PositionManager := ⟨RiskConfig.defaults, [], 0⟩

/-- A sample filled order response. -/
def sampleOrder : OrderResp :=
  { filled_qty := 100, filled_avg_price := 2, status := "filled", qty_requested := 100 }

/-- A sample strategy-config state that signals buy on a crypto symbol. -/
def buyCryptoCfg : StrategyConfigState :=
  { symbol := "XRP/USD", strategy := alwaysBuy, pm := pmDefault,
    last_run := none, trades_this_session := 0, pnl_this_session := 0 }

/-- A cycle world whose bar fetch returned an empty window. -/
def emptyBarsWorld : CycleWorld :=
  { bars := some [], account_value := 100000, latest_price := 2,
    buyResp := sampleOrder, buyQtyBefore := 0, buyQtyAfter := 195/2,
    sellResp := sampleOrder, sellQtyBefore := 0, sellQtyAfter := 0, now := 5 }

/-- The same cycle world with a one-bar window. -/
def oneBarWorld : CycleWorld := { emptyBarsWorld with bars := some [2] }

/-- Relation between two backtest run states that differ at most in the
entry fields, and only while flat: used to show that the leftover instance
state of the engine cannot influence a run. -/
def runRel (s1 s2 : RunState) : Prop :=
  s1.cash = s2.cash ∧ s1.qty = s2.qty ∧ s1.trades = s2.trades ∧
  s1.equity = s2.equity ∧
  (s1.qty = 0 ∨ (s1.entry_price = s2.entry_price ∧ s1.entry_time = s2.entry_time))

/-- Run states in which a held position always has a recorded entry. -/
def entryInv (st : RunState) : Prop := 0 < st.qty → st.entry_price ≠ none

/-! ## Helper lemmas -/

/-- Python truncation agrees with the floor on nonnegative rationals. -/
theorem truncQ_eq_floor {q : ℚ} (h : 0 ≤ q) : truncQ q = ⌊q⌋ := by
  unfold truncQ
  rw [Rat.floor_def]
  exact Int.tdiv_eq_ediv (Rat.num_nonneg.mpr h) (by positivity)

/-- Python truncation of a nonnegative rational is nonnegative. -/
theorem truncQ_nonneg {q : ℚ} (h : 0 ≤ q) : 0 ≤ truncQ q :=
  Int.tdiv_nonneg (Rat.num_nonneg.mpr h) (by positivity)

/-- The drawdown loop of the code agrees with the spec-side fold whenever the
seed peak is positive and all equity values are positive (so no division by
zero occurs); the accumulator folds in by a running max. -/
theorem drawdownLoop_eq_spec (l : List ℚ) :
    ∀ (peak m : ℚ), 0 < peak → (∀ e ∈ l, 0 < e) → 0 ≤ m →
      drawdownLoop l peak m = some (max m (specDrawdownFrom l peak)) := by
  induction l with
  | nil =>
    intro peak m _ _ hm
    simp [drawdownLoop, specDrawdownFrom, max_eq_left hm]
  | cons e rest ih =>
    intro peak m hp hl hm
    have hpe : (if e > peak then e else peak) = max peak e := by
      rcases le_or_lt e peak with h | h
      · rw [if_neg (not_lt.mpr h), max_eq_left h]
      · rw [if_pos h, max_eq_right h.le]
    have hp' : 0 < max peak e := lt_of_lt_of_le hp (le_max_left _ _)
    have ht : 0 ≤ (max peak e - e) / max peak e :=
      div_nonneg (sub_nonneg.mpr (le_max_right _ _)) hp'.le
    simp only [drawdownLoop, specDrawdownFrom, hpe, if_neg hp'.ne']
    rw [ih (max peak e) (max m ((max peak e - e) / max peak e)) hp'
      (fun x hx => hl x (List.mem_cons_of_mem _ hx)) (le_max_of_le_right ht)]
    rw [max_assoc]

/-- On a non-decreasing equity list whose head is at least the seed peak,
every running drawdown term vanishes. -/
theorem specDrawdownFrom_of_chain (l : List ℚ) :
    ∀ peak : ℚ, List.Chain' (· ≤ ·) l → (∀ e ∈ l.head?, peak ≤ e) →
      specDrawdownFrom l peak = 0 := by
  induction l with
  | nil => intro peak _ _; rfl
  | cons e rest ih =>
    intro peak hch hhd
    have hpe : peak ≤ e := hhd e rfl
    have hch' := List.chain'_cons'.mp hch
    simp only [specDrawdownFrom, max_eq_right hpe, sub_self, zero_div]
    rw [ih e hch'.2 hch'.1]
    simp

/-- The spec-side drawdown fold is nonnegative for a positive seed peak. -/
theorem specDrawdownFrom_nonneg (l : List ℚ) :
    ∀ peak : ℚ, 0 < peak → 0 ≤ specDrawdownFrom l peak := by
  induction l with
  | nil => intro peak _; exact le_refl 0
  | cons e rest _ =>
    intro peak hp
    have hp' : 0 < max peak e := lt_of_lt_of_le hp (le_max_left _ _)
    have ht : 0 ≤ (max peak e - e) / max peak e :=
      div_nonneg (sub_nonneg.mpr (le_max_right _ _)) hp'.le
    exact le_max_of_le_left ht

/-- The break-on-first-match pnl loop of close_position computes the pnl of
the first position found for the symbol, or 0 when none matches. -/
theorem firstMatchPnl_eq_find (l : List Position) (sym : String) (xp : ℚ) :
    firstMatchPnl l sym xp =
      match l.find? (fun p => p.symbol = sym) with
      | some p => (xp - p.entry_price) * p.qty
      | none => 0 := by
  induction l with
  | nil => rfl
  | cons p rest ih =>
    by_cases h : p.symbol = sym
    · simp [firstMatchPnl, List.find?, h]
    · simp [firstMatchPnl, List.find?, h, ih]

/-! ## Claim C4 -/

/-- C4 counterexample: RiskConfig performs no validation, so constructing it
with risk_per_trade = -1 succeeds and yields a config whose risk_per_trade is
not positive, contradicting fail-fast validation at construction. -/
theorem riskConfig_accepts_negative_risk :
    (RiskConfig.mk (-1) (5/100) (10/100) 100 3 (5/100)).risk_per_trade = -1 ∧
    ¬ 0 < (RiskConfig.mk (-1) (5/100) (10/100) 100 3 (5/100)).risk_per_trade := by
  refine ⟨rfl, ?_⟩
  norm_num

/-- C4 (amended): RiskConfig.__init__ only assigns its six parameters to
fields; construction always succeeds with the given values stored unchanged,
with no validation and no configuration error for non-positive values. -/
theorem riskConfig_stores_unvalidated (a b c : ℚ) (d e : ℤ) (f : ℚ) :
    (RiskConfig.mk a b c d e f).risk_per_trade = a ∧
    (RiskConfig.mk a b c d e f).stop_loss_pct = b ∧
    (RiskConfig.mk a b c d e f).take_profit_pct = c ∧
    (RiskConfig.mk a b c d e f).max_position_size = d ∧
    (RiskConfig.mk a b c d e f).max_positions_open = e ∧
    (RiskConfig.mk a b c d e f).max_daily_loss_pct = f :=
  ⟨rfl, rfl, rfl, rfl, rfl, rfl⟩

/-! ## Claim C5 -/

/-- C5 counterexample: with the default RiskConfig (stop_loss_pct = 0.05 > 0)
and account_equity = -1000, entry_price = 50, calculate_position_size returns
-8, which does not lie in [0, max_position_size]: there is no lower clamp at
zero. -/
theorem position_size_negative_for_negative_equity :
    (PositionManager.mk RiskConfig.defaults [] 0).calculate_position_size (-1000) 50 = -8 ∧
    ¬ (0 ≤ (PositionManager.mk RiskConfig.defaults [] 0).calculate_position_size (-1000) 50) := by
  norm_num [PositionManager.calculate_position_size, RiskConfig.defaults, truncQ]

/-- C5 (amended): calculate_position_size returns 0 whenever the stop
distance entry_price * stop_loss_pct is ≤ 0 (never raising), and otherwise
returns min(trunc(risk_amount / stop_distance), max_position_size) with no
lower clamp; when additionally the risk amount account_equity *
risk_per_trade is nonnegative and max_position_size is nonnegative, the
truncation coincides with the floor and the result lies in
[0, max_position_size]. -/
theorem calculate_position_size_formula_and_range
    (pm : PositionManager) (equity price : ℚ) :
    (price * pm.config.stop_loss_pct ≤ 0 →
      pm.calculate_position_size equity price = 0) ∧
    (0 < price * pm.config.stop_loss_pct →
      pm.calculate_position_size equity price =
        min (truncQ (equity * pm.config.risk_per_trade / (price * pm.config.stop_loss_pct)))
          pm.config.max_position_size) ∧
    (0 < price * pm.config.stop_loss_pct → 0 ≤ equity * pm.config.risk_per_trade →
      0 ≤ pm.config.max_position_size →
      pm.calculate_position_size equity price =
        min ⌊equity * pm.config.risk_per_trade / (price * pm.config.stop_loss_pct)⌋
          pm.config.max_position_size ∧
      0 ≤ pm.calculate_position_size equity price ∧
      pm.calculate_position_size equity price ≤ pm.config.max_position_size) := by
  refine ⟨fun h => ?_, fun h => ?_, fun h hr hm => ?_⟩
  · simp only [PositionManager.calculate_position_size, if_pos h]
  · simp only [PositionManager.calculate_position_size, if_neg (not_le.mpr h)]
  · have hq : 0 ≤ equity * pm.config.risk_per_trade / (price * pm.config.stop_loss_pct) :=
      div_nonneg hr h.le
    simp only [PositionManager.calculate_position_size, if_neg (not_le.mpr h)]
    exact ⟨by rw [truncQ_eq_floor hq], le_min (truncQ_nonneg hq) hm, min_le_right _ _⟩

/-- C5 witness: the spec scenario equity = 100000, entry_price = 50 with the
default config satisfies the hypotheses and lands in [0, 100]. -/
theorem calculate_position_size_formula_and_range_witness :
    0 < (50 : ℚ) * RiskConfig.defaults.stop_loss_pct ∧
    (0:ℚ) ≤ 100000 * RiskConfig.defaults.risk_per_trade ∧
    (0:ℤ) ≤ RiskConfig.defaults.max_position_size ∧
    0 ≤ (PositionManager.mk RiskConfig.defaults [] 0).calculate_position_size 100000 50 ∧
    (PositionManager.mk RiskConfig.defaults [] 0).calculate_position_size 100000 50 ≤
      (PositionManager.mk RiskConfig.defaults [] 0).config.max_position_size := by
  have h1 : 0 < (50 : ℚ) * RiskConfig.defaults.stop_loss_pct := by
    norm_num [RiskConfig.defaults]
  have h2 : (0:ℚ) ≤ 100000 * RiskConfig.defaults.risk_per_trade := by
    norm_num [RiskConfig.defaults]
  have h3 : (0:ℤ) ≤ RiskConfig.defaults.max_position_size := by
    norm_num [RiskConfig.defaults]
  have h := (calculate_position_size_formula_and_range
    (PositionManager.mk RiskConfig.defaults [] 0) 100000 50).2.2 h1 h2 h3
  exact ⟨h1, h2, h3, h.2.1, h.2.2⟩

/-! ## Claim C7 -/

/-- C7 counterexample: the equity curve [0] is (trivially) monotonically
non-decreasing, yet max_drawdown raises ZeroDivisionError on it (the running
peak is 0), modelled as none, instead of returning 0.0 as claimed for every
monotone curve. -/
theorem max_drawdown_zero_peak_raises :
    List.Chain' (· ≤ ·) (BacktestResult.mk "X" 100 [] 1 [(0:ℚ)]).equity_curve ∧
    (BacktestResult.mk "X" 100 [] 1 [(0:ℚ)]).max_drawdown = none ∧
    (BacktestResult.mk "X" 100 [] 1 [(0:ℚ)]).max_drawdown ≠ some 0 := by
  have h : (BacktestResult.mk "X" 100 [] 1 [(0:ℚ)]).max_drawdown = none := by
    norm_num [BacktestResult.max_drawdown, drawdownLoop]
  exact ⟨List.chain'_singleton _, h, by rw [h]; exact fun hc => Option.noConfusion hc⟩

/-- C7 (amended): on every equity curve of positive values (so that every
running peak is nonzero and the Python division cannot raise), max_drawdown
equals the maximum over the sequence of (running_peak - equity) /
running_peak; it is 0.0 on an empty or positive monotonically non-decreasing
curve; and it evaluates to 0.0 on [100, 110, 120] and to 0.10 on
[100000, 90000, 95000]. -/
theorem max_drawdown_matches_spec (r : BacktestResult) :
    ((∀ e ∈ r.equity_curve, 0 < e) →
      r.max_drawdown = some (specMaxDrawdown r.equity_curve)) ∧
    ((∀ e ∈ r.equity_curve, 0 < e) → List.Chain' (· ≤ ·) r.equity_curve →
      r.max_drawdown = some 0) ∧
    (BacktestResult.mk "X" 100 [] 3 [100, 110, 120]).max_drawdown = some 0 ∧
    (BacktestResult.mk "X" 100000 [] 3 [100000, 90000, 95000]).max_drawdown = some (1/10) := by
  have main : (∀ e ∈ r.equity_curve, 0 < e) →
      r.max_drawdown = some (specMaxDrawdown r.equity_curve) := by
    intro hpos
    cases hec : r.equity_curve with
    | nil => simp [BacktestResult.max_drawdown, specMaxDrawdown, hec]
    | cons e0 tl =>
      have he0 : 0 < e0 := hpos e0 (by rw [hec]; exact List.mem_cons_self _ _)
      have hall : ∀ e ∈ e0 :: tl, 0 < e := by rw [← hec]; exact hpos
      have h := drawdownLoop_eq_spec (e0 :: tl) e0 0 he0 hall (le_refl 0)
      simp only [BacktestResult.max_drawdown, specMaxDrawdown, hec, h,
        max_eq_right (specDrawdownFrom_nonneg (e0 :: tl) e0 he0)]
  refine ⟨main, fun hpos hch => ?_, ?_, ?_⟩
  · rw [main hpos]
    cases hec : r.equity_curve with
    | nil => simp [specMaxDrawdown]
    | cons e0 tl =>
      rw [hec] at hch
      have : specDrawdownFrom (e0 :: tl) e0 = 0 :=
        specDrawdownFrom_of_chain (e0 :: tl) e0 hch (by intro e he; simp at he; rw [he])
      simp [specMaxDrawdown, this]
  · norm_num [BacktestResult.max_drawdown, drawdownLoop]
  · norm_num [BacktestResult.max_drawdown, drawdownLoop]

/-- C7 witness: the positive monotone curve [100, 110, 120] satisfies the
hypotheses and has max_drawdown 0.0. -/
theorem max_drawdown_matches_spec_witness :
    (∀ e ∈ (BacktestResult.mk "X" 100 [] 3 [(100:ℚ), 110, 120]).equity_curve, 0 < e) ∧
    List.Chain' (· ≤ ·) (BacktestResult.mk "X" 100 [] 3 [(100:ℚ), 110, 120]).equity_curve ∧
    (BacktestResult.mk "X" 100 [] 3 [(100:ℚ), 110, 120]).max_drawdown = some 0 := by
  have hpos : ∀ e ∈ (BacktestResult.mk "X" 100 [] 3 [(100:ℚ), 110, 120]).equity_curve, 0 < e := by
    intro e he
    simp only [List.mem_cons, List.not_mem_nil, or_false] at he
    rcases he with h | h | h <;> rw [h] <;> norm_num
  have hch : List.Chain' (· ≤ ·)
      (BacktestResult.mk "X" 100 [] 3 [(100:ℚ), 110, 120]).equity_curve := by
    simp only [List.chain'_cons, List.chain'_singleton, and_true]
    norm_num
  exact ⟨hpos, hch, (max_drawdown_matches_spec _).2.1 hpos hch⟩

/-! ## Claim C9 -/

/-- C9: return_pct divides total_pnl by starting_cash with no guard, so a
BacktestResult constructed with starting_cash = 0 raises ZeroDivisionError
(modelled as none), and summary, which evaluates return_pct, raises with it;
win_rate by contrast is guarded and returns 0.0 on an empty trade ledger. -/
theorem return_pct_unguarded_win_rate_guarded
    (sym : String) (trades : List Trade) (n : ℕ) (eqc : List ℚ) (c : ℚ) :
    (BacktestResult.mk sym 0 trades n eqc).return_pct = none ∧
    (BacktestResult.mk sym 0 trades n eqc).summary = none ∧
    (BacktestResult.mk sym c [] n eqc).win_rate = 0 := by
  refine ⟨?_, ?_, ?_⟩
  · simp [BacktestResult.return_pct]
  · simp [BacktestResult.summary, BacktestResult.return_pct]
  · simp [BacktestResult.win_rate]

/-! ## Claim C10 -/

/-- C10: open_position appends and returns a new Position unconditionally for
every manager state and every argument - it never consults
can_open_position, never requires qty > 0 and never checks for an existing
position with the same symbol (the equations hold for arbitrary pm, in
particular one already holding positions for the symbol or failing the
admission gate); and close_position realizes the pnl of only the first
matching position into daily_pnl while removing every position with that
symbol. -/
theorem open_position_unconditional_close_first_match
    (pm : PositionManager) (sym : String) (entry_price qty : ℚ)
    (d : ℕ) (xp : ℚ) :
    ((pm.open_position sym entry_price qty d).2.open_positions
      = pm.open_positions ++ [(pm.open_position sym entry_price qty d).1]) ∧
    ((pm.open_position sym entry_price qty d).1.qty = qty) ∧
    ((pm.open_position sym entry_price qty d).1.symbol = sym) ∧
    ((pm.open_position sym entry_price qty d).2.daily_pnl = pm.daily_pnl) ∧
    ((pm.open_position sym entry_price qty d).2.config = pm.config) ∧
    ((pm.close_position sym xp).open_positions
      = pm.open_positions.filter (fun p => p.symbol ≠ sym)) ∧
    ((pm.close_position sym xp).daily_pnl
      = pm.daily_pnl +
        match pm.open_positions.find? (fun p => p.symbol = sym) with
        | some p => (xp - p.entry_price) * p.qty
        | none => 0) := by
  refine ⟨rfl, rfl, rfl, rfl, rfl, rfl, ?_⟩
  simp [PositionManager.close_position, firstMatchPnl_eq_find]

/-- get_order_details passes the order response's average fill price through
unchanged on both the crypto and the stock branch. -/
theorem get_order_details_price (resp : OrderResp) (side : Side) (sym : String)
    (qb qa : ℚ) :
    (get_order_details resp side sym qb qa).filled_price = resp.filled_avg_price := by
  cases hb : brokerIsCrypto sym <;> simp [get_order_details, hb]

/-- One bar step preserves the determinism relation: runs that agree on all
fields except (while flat) the entry fields keep agreeing. -/
theorem runRel_barStep (cfg : BTConfig) (sym : String) (strat : List ℚ → String)
    (bars : List ℚ) (i : ℕ) {s1 s2 : RunState} (h : runRel s1 s2) :
    runRel (barStep cfg sym strat bars s1 i) (barStep cfg sym strat bars s2 i) := by
  obtain ⟨hc, hq, ht, he, hor⟩ := h
  by_cases hb : strat (bars.take (i + 1)) = "buy" ∧ s1.qty = 0
  · have hb2 : strat (bars.take (i + 1)) = "buy" ∧ s2.qty = 0 := ⟨hb.1, hq ▸ hb.2⟩
    simp only [barStep, if_pos hb, if_pos hb2, hc, hq, ht, he]
    exact ⟨rfl, rfl, rfl, rfl, Or.inr ⟨rfl, rfl⟩⟩
  · have hb2 : ¬ (strat (bars.take (i + 1)) = "buy" ∧ s2.qty = 0) := by
      rw [← hq]; exact hb
    by_cases hs : strat (bars.take (i + 1)) = "sell" ∧ 0 < s1.qty
    · have hs2 : strat (bars.take (i + 1)) = "sell" ∧ 0 < s2.qty := ⟨hs.1, hq ▸ hs.2⟩
      have hent : s1.entry_price = s2.entry_price ∧ s1.entry_time = s2.entry_time := by
        rcases hor with h0 | h12
        · exact absurd h0 (ne_of_gt hs.2).symm.symm
        · exact h12
      simp only [barStep, if_neg hb, if_neg hb2, if_pos hs, if_pos hs2, sellUpdate,
        mkSellTrade, hc, hq, ht, he, hent.1, hent.2]
      exact ⟨rfl, rfl, rfl, rfl, Or.inl rfl⟩
    · have hs2 : ¬ (strat (bars.take (i + 1)) = "sell" ∧ 0 < s2.qty) := by
        rw [← hq]; exact hs
      simp only [barStep, if_neg hb, if_neg hb2, if_neg hs, if_neg hs2, hc, hq, ht, he]
      refine ⟨rfl, rfl, rfl, rfl, ?_⟩
      rcases hor with h0 | h12
      · exact Or.inl (hq ▸ h0)
      · exact Or.inr h12

/-- The whole bar loop preserves the determinism relation. -/
theorem runRel_runLoop (cfg : BTConfig) (sym : String) (strat : List ℚ → String)
    (bars : List ℚ) (idxs : List ℕ) :
    ∀ {s1 s2 : RunState}, runRel s1 s2 →
      runRel (runLoop cfg sym strat bars idxs s1) (runLoop cfg sym strat bars idxs s2) := by
  induction idxs with
  | nil => intro s1 s2 h; exact h
  | cons i rest ih =>
    intro s1 s2 h
    exact ih (runRel_barStep cfg sym strat bars i h)

/-- Related loop-end states yield identical cash, trades and equity after the
force-close block. -/
theorem runRel_endClose (cfg : BTConfig) (sym : String) (bars : List ℚ)
    {s1 s2 : RunState} (h : runRel s1 s2) :
    (endClose cfg sym bars s1).cash = (endClose cfg sym bars s2).cash ∧
    (endClose cfg sym bars s1).trades = (endClose cfg sym bars s2).trades ∧
    (endClose cfg sym bars s1).equity = (endClose cfg sym bars s2).equity := by
  obtain ⟨hc, hq, ht, he, hor⟩ := h
  by_cases hg : 0 < s1.qty ∧ s1.entry_price ≠ none
  · have hent : s1.entry_price = s2.entry_price ∧ s1.entry_time = s2.entry_time := by
      rcases hor with h0 | h12
      · exact absurd h0 (ne_of_gt hg.1).symm.symm
      · exact h12
    have hg2 : 0 < s2.qty ∧ s2.entry_price ≠ none := ⟨hq ▸ hg.1, hent.1 ▸ hg.2⟩
    simp only [endClose, if_pos hg, if_pos hg2, mkSellTrade, hc, hq, ht, he,
      hent.1, hent.2]
    exact ⟨trivial, trivial, trivial⟩
  · have hg2 : ¬ (0 < s2.qty ∧ s2.entry_price ≠ none) := by
      intro hcon
      apply hg
      refine ⟨hq ▸ hcon.1, ?_⟩
      have hent : s1.entry_price = s2.entry_price := by
        rcases hor with h0 | h12
        · exact absurd (hq ▸ h0 : s2.qty = 0) (ne_of_gt hcon.1).symm.symm
        · exact h12.1
      rw [hent]
      exact hcon.2
    simp only [endClose, if_neg hg, if_neg hg2]
    exact ⟨hc, ht, he⟩

/-- One bar step preserves the invariant that a held position has a recorded
entry price. -/
theorem entryInv_barStep (cfg : BTConfig) (sym : String) (strat : List ℚ → String)
    (bars : List ℚ) (i : ℕ) {st : RunState} (h : entryInv st) :
    entryInv (barStep cfg sym strat bars st i) := by
  by_cases hb : strat (bars.take (i + 1)) = "buy" ∧ st.qty = 0
  · intro _
    simp only [barStep, if_pos hb]
    exact fun hc => Option.noConfusion hc
  · by_cases hs : strat (bars.take (i + 1)) = "sell" ∧ 0 < st.qty
    · intro hq
      simp only [barStep, if_neg hb, if_pos hs, sellUpdate] at hq
      exact absurd hq (lt_irrefl 0)
    · intro hq
      simp only [barStep, if_neg hb, if_neg hs] at hq ⊢
      exact h hq

/-- The bar loop preserves the held-implies-entry invariant. -/
theorem entryInv_runLoop (cfg : BTConfig) (sym : String) (strat : List ℚ → String)
    (bars : List ℚ) (idxs : List ℕ) :
    ∀ {st : RunState}, entryInv st → entryInv (runLoop cfg sym strat bars idxs st) := by
  induction idxs with
  | nil => intro st h; exact h
  | cons i rest ih =>
    intro st h
    exact ih (entryInv_barStep cfg sym strat bars i h)

/-! ## Claim C1 -/

/-- C1 (code bug): in the buy branch, when the total cost exceeds the cash,
the quantity is rescaled by cash / total_cost and the notional is recomputed,
but the commission is not, so the recomputed total cost still exceeds cash by
commission * (1 - cash / total_cost) and the cash balance goes negative
whenever the commission is positive. Concretely, on the crypto symbol
"BTC/USD" with risk_per_trade = 0.999, cash 10000 and price 100 (default
slippage 0.05% and crypto commission 0.25%), the buy leaves a strictly
negative cash balance (about -0.0498) while a positive quantity was bought,
contradicting the claim that the scaled total cost exactly equals cash and
that cash can never go negative. -/
theorem buy_scaling_cash_goes_negative :
    (buyUpdate { BTConfig.defaults with risk_per_trade := 999/1000 }
      "BTC/USD" 10000 100).1 = -1598599/32080000 ∧
    (buyUpdate { BTConfig.defaults with risk_per_trade := 999/1000 }
      "BTC/USD" 10000 100).1 < 0 ∧
    0 < (buyUpdate { BTConfig.defaults with risk_per_trade := 999/1000 }
      "BTC/USD" 10000 100).2 := by
  have hc : btIsCrypto "BTC/USD" = true := by decide
  norm_num [buyUpdate, btCommission, hc, BTConfig.defaults]

/-! ## Claim C2 -/

/-- C2 counterexample: a cycle whose bar fetch returns an empty window aborts
before the last_run update, so last_run stays none (here against a world with
now = 5) and the whole config is returned unchanged. -/
theorem execute_strategy_empty_bars_skips_last_run :
    (execute_strategy buyCryptoCfg emptyBarsWorld).last_run = none ∧
    (execute_strategy buyCryptoCfg emptyBarsWorld).last_run ≠ some emptyBarsWorld.now ∧
    execute_strategy buyCryptoCfg emptyBarsWorld = buyCryptoCfg := by
  refine ⟨rfl, ?_, rfl⟩
  intro h
  exact Option.noConfusion h

/-- C2 (amended): _execute_strategy updates last_run to the current time only
when the cycle runs to completion; a cycle aborted because the bar window is
missing or empty returns early with the whole per-strategy state unchanged
(in the code an exception raised inside the cycle likewise skips the update,
since the assignment is the last statement of the try block). -/
theorem last_run_updated_only_on_completed_cycle
    (cfg : StrategyConfigState) (w : CycleWorld) :
    (w.bars = none → execute_strategy cfg w = cfg) ∧
    (w.bars = some [] → execute_strategy cfg w = cfg) ∧
    (∀ b bs, w.bars = some (b :: bs) →
      (execute_strategy cfg w).last_run = some w.now) := by
  refine ⟨fun h => ?_, fun h => ?_, fun b bs h => ?_⟩
  · simp only [execute_strategy, h]
  · simp only [execute_strategy, h, List.length_nil, if_pos]
  · simp only [execute_strategy, h, List.length_cons]
    simp

/-- C2 witness: a completed one-bar cycle sets last_run to the current time. -/
theorem last_run_updated_only_on_completed_cycle_witness :
    oneBarWorld.bars = some [2] ∧
    (execute_strategy buyCryptoCfg oneBarWorld).last_run = some oneBarWorld.now :=
  ⟨rfl, (last_run_updated_only_on_completed_cycle buyCryptoCfg oneBarWorld).2.2 2 [] rfl⟩

/-! ## Claim C3 -/

/-- C3 counterexample: the crypto fill reconciliation does not use the raw
position delta: the delta is rounded to 8 decimal places first. For a buy on
"XRP/USD" whose position delta is 10^-9 (positive), the trusted filled
quantity becomes 0, not the delta - and the engine would then not register a
position at all. -/
theorem crypto_fill_rounding_loses_small_delta :
    brokerIsCrypto "XRP/USD" = true ∧
    (0:ℚ) < 1/1000000000 - 0 ∧
    (get_order_details sampleOrder Side.buy "XRP/USD" 0 (1/1000000000)).filled_qty = 0 ∧
    (get_order_details sampleOrder Side.buy "XRP/USD" 0 (1/1000000000)).filled_qty ≠
      1/1000000000 - 0 := by
  have hcr : brokerIsCrypto "XRP/USD" = true := by decide
  have h8 : round8 ((1:ℚ)/1000000000) = 0 := by
    norm_num [round8, roundHalfEven]
  refine ⟨hcr, by norm_num, ?_, ?_⟩ <;>
    norm_num [get_order_details, hcr, h8]

/-- C3 (amended): for crypto symbols (containing "/") the trusted filled
quantity is the broker-position delta, snapshotted immediately before
submission and after settlement, ROUNDED HALF-TO-EVEN TO 8 DECIMAL PLACES:
after minus before for buys and before minus after for sells, overriding the
order's own fill field; for non-crypto symbols the order's own fill field is
used. The engine registers a bought Position with exactly that reconciled
quantity (when it is positive) and realizes sell pnl with it. -/
theorem crypto_fill_reconciliation_rounded_delta
    (cfg : StrategyConfigState) (w : CycleWorld) (resp : OrderResp)
    (side : Side) (sym : String) (qb qa : ℚ) :
    (brokerIsCrypto sym = true →
      (get_order_details resp Side.buy sym qb qa).filled_qty = round8 (qa - qb) ∧
      (get_order_details resp Side.sell sym qb qa).filled_qty = round8 (qb - qa)) ∧
    (brokerIsCrypto sym = false →
      (get_order_details resp side sym qb qa).filled_qty = resp.filled_qty) ∧
    (∀ b bs, w.bars = some (b :: bs) → cfg.strategy (b :: bs) = "buy" →
      cfg.pm.can_open_position w.account_value = true →
      0 < cfg.pm.calculate_position_size w.account_value w.latest_price →
      0 < (get_order_details w.buyResp Side.buy cfg.symbol w.buyQtyBefore
        w.buyQtyAfter).filled_qty →
      (execute_strategy cfg w).pm =
        (cfg.pm.open_position cfg.symbol w.buyResp.filled_avg_price
          (get_order_details w.buyResp Side.buy cfg.symbol w.buyQtyBefore
            w.buyQtyAfter).filled_qty w.now).2 ∧
      (brokerIsCrypto cfg.symbol = true →
        (execute_strategy cfg w).pm =
          (cfg.pm.open_position cfg.symbol w.buyResp.filled_avg_price
            (round8 (w.buyQtyAfter - w.buyQtyBefore)) w.now).2)) ∧
    (∀ b bs position rest, w.bars = some (b :: bs) → cfg.strategy (b :: bs) = "sell" →
      cfg.pm.open_positions = position :: rest →
      0 < (get_order_details w.sellResp Side.sell cfg.symbol w.sellQtyBefore
        w.sellQtyAfter).filled_qty →
      (execute_strategy cfg w).pm =
        cfg.pm.close_position cfg.symbol w.sellResp.filled_avg_price ∧
      (execute_strategy cfg w).pnl_this_session =
        cfg.pnl_this_session +
          (w.sellResp.filled_avg_price - position.entry_price) *
            (get_order_details w.sellResp Side.sell cfg.symbol w.sellQtyBefore
              w.sellQtyAfter).filled_qty ∧
      (brokerIsCrypto cfg.symbol = true →
        (execute_strategy cfg w).pnl_this_session =
          cfg.pnl_this_session +
            (w.sellResp.filled_avg_price - position.entry_price) *
              round8 (w.sellQtyBefore - w.sellQtyAfter))) := by
  constructor
  · intro hcr
    constructor
    · simp only [get_order_details, hcr, if_pos]
    · simp only [get_order_details, hcr, if_pos]
  constructor
  · intro hcr
    simp only [get_order_details, hcr, Bool.false_eq_true, if_false]
  constructor
  · intro b bs hb hsig hco hsz hfq
    have hkey : (execute_strategy cfg w).pm =
        (cfg.pm.open_position cfg.symbol w.buyResp.filled_avg_price
          (get_order_details w.buyResp Side.buy cfg.symbol w.buyQtyBefore
            w.buyQtyAfter).filled_qty w.now).2 := by
      simp only [execute_strategy, hb, List.length_cons, hsig, hco,
        if_pos hsz, if_pos hfq]
      simp [get_order_details_price]
    refine ⟨hkey, fun hcrs => ?_⟩
    rw [hkey]
    simp only [get_order_details, hcrs, if_pos]
  · intro b bs position rest hb hsig hpos hfq
    have hlen : 0 < cfg.pm.get_num_open_positions := by
      simp [PositionManager.get_num_open_positions, hpos]
    have hkey : (execute_strategy cfg w).pm =
          cfg.pm.close_position cfg.symbol w.sellResp.filled_avg_price ∧
        (execute_strategy cfg w).pnl_this_session =
          cfg.pnl_this_session +
            (w.sellResp.filled_avg_price - position.entry_price) *
              (get_order_details w.sellResp Side.sell cfg.symbol w.sellQtyBefore
                w.sellQtyAfter).filled_qty := by
      simp only [execute_strategy, hb, List.length_cons, hsig, hpos,
        if_pos hlen, if_pos hfq]
      simp [get_order_details_price]
    refine ⟨hkey.1, hkey.2, fun hcrs => ?_⟩
    rw [hkey.2]
    simp only [get_order_details, hcrs, if_pos]

/-- C3 witness: a concrete crypto buy cycle on "XRP/USD" with position delta
97.5 (8-decimal stable, so the rounding is the identity) registers a Position
of quantity 97.5 even though the order object itself reports 100 filled. -/
theorem crypto_fill_reconciliation_rounded_delta_witness :
    oneBarWorld.bars = some [2] ∧
    buyCryptoCfg.strategy [2] = "buy" ∧
    buyCryptoCfg.pm.can_open_position oneBarWorld.account_value = true ∧
    0 < buyCryptoCfg.pm.calculate_position_size oneBarWorld.account_value
      oneBarWorld.latest_price ∧
    0 < (get_order_details oneBarWorld.buyResp Side.buy buyCryptoCfg.symbol
      oneBarWorld.buyQtyBefore oneBarWorld.buyQtyAfter).filled_qty ∧
    brokerIsCrypto buyCryptoCfg.symbol = true ∧
    (execute_strategy buyCryptoCfg oneBarWorld).pm =
      (buyCryptoCfg.pm.open_position buyCryptoCfg.symbol
        oneBarWorld.buyResp.filled_avg_price
        (round8 (oneBarWorld.buyQtyAfter - oneBarWorld.buyQtyBefore))
        oneBarWorld.now).2 := by
  have h1 : oneBarWorld.bars = some [2] := rfl
  have h2 : buyCryptoCfg.strategy [2] = "buy" := rfl
  have h3 : buyCryptoCfg.pm.can_open_position oneBarWorld.account_value = true := by
    norm_num [buyCryptoCfg, oneBarWorld, emptyBarsWorld, pmDefault,
      PositionManager.can_open_position, RiskConfig.defaults]
  have h4 : 0 < buyCryptoCfg.pm.calculate_position_size oneBarWorld.account_value
      oneBarWorld.latest_price := by
    norm_num [buyCryptoCfg, oneBarWorld, emptyBarsWorld, pmDefault,
      PositionManager.calculate_position_size, RiskConfig.defaults, truncQ]
  have h5 : 0 < (get_order_details oneBarWorld.buyResp Side.buy buyCryptoCfg.symbol
      oneBarWorld.buyQtyBefore oneBarWorld.buyQtyAfter).filled_qty := by
    have hcr : brokerIsCrypto "XRP/USD" = true := by decide
    norm_num [oneBarWorld, emptyBarsWorld, get_order_details, hcr, buyCryptoCfg,
      round8, roundHalfEven, sampleOrder]
  have h6 : brokerIsCrypto buyCryptoCfg.symbol = true := by decide
  exact ⟨h1, h2, h3, h4, h5, h6,
    ((crypto_fill_reconciliation_rounded_delta buyCryptoCfg oneBarWorld sampleOrder
      Side.buy "XRP/USD" 0 0).2.2.1 2 [] h1 h2 h3 h4 h5).2 h6⟩

/-! ## Claim C6 -/

/-- C6 counterexample: an always-buy run over 21 constant bars at price 100
enters at bar 20 and is force-closed at the final bar; the appended Trade
records exit_price = 100, the RAW final price, whereas a normal sell at that
bar records the slipped price 100 * (1 - 0.0005) = 99.95, so the force-close
trade is not computed field-for-field as a normal sell. -/
theorem force_close_records_unslipped_price :
    (runBT BTConfig.defaults "AAPL" alwaysBuy bars21 10000 none none).trades.map
      Trade.exit_price = [100] ∧
    (runBT BTConfig.defaults "AAPL" alwaysBuy bars21 10000 none none).trades.map
      Trade.entry_price = [2001/20] ∧
    (runBT BTConfig.defaults "AAPL" alwaysBuy bars21 10000 none none).trades.map
      Trade.qty = [2] ∧
    (mkSellTrade BTConfig.defaults "AAPL" (2001/20) 20 2 100 20).exit_price = 1999/20 ∧
    ((100:ℚ) ≠ 1999/20) := by
  have hidx : barIndices bars21 = [20] := by decide
  have hget : bars21.getD 20 0 = 100 := by decide
  have hcr : btIsCrypto "AAPL" = false := by decide
  have hlast : (bars21.getLast?).getD 0 = 100 := by decide
  have hne : bars21.isEmpty = false := by decide
  refine ⟨?_, ?_, ?_, by norm_num [mkSellTrade, BTConfig.defaults], by norm_num⟩ <;>
  · simp only [runBT, hne, Bool.false_eq_true, if_false, hidx]
    simp only [runLoop, barStep, alwaysBuy, initState, hget]
    norm_num [buyUpdate, btCommission, hcr, BTConfig.defaults, endClose, hlast,
      mkSellTrade]
    simp

/-- C6 (amended): when the bar loop ends holding a positive quantity, the run
appends exactly one more trade, equal to the normal-sell trade at the final
bar in every field except exit_price, which records the raw (unslipped) final
bar price; the cash credit uses the same slipped-notional-minus-commission
model as a normal sell, and the final trade liquidates the entire held
quantity, so the run ends flat; when the loop ends with no positive holding
the ledger is unchanged. -/
theorem force_close_same_model_ends_flat
    (cfg : BTConfig) (sym : String) (strat : List ℚ → String) (bars : List ℚ)
    (cash : ℚ) (e0 : Option ℚ) (t0 : Option ℕ) (stL : RunState)
    (hst : stL = runLoop cfg sym strat bars (barIndices bars) (initState cash e0 t0))
    (hbars : bars ≠ []) :
    (0 < stL.qty →
      (runBT cfg sym strat bars cash e0 t0).trades =
        stL.trades ++
          [{ mkSellTrade cfg sym (stL.entry_price.getD 0) (stL.entry_time.getD 0)
              stL.qty (bars.getLast?.getD 0) (bars.length - 1) with
            exit_price := bars.getLast?.getD 0 }]) ∧
    (0 < stL.qty →
      ((runBT cfg sym strat bars cash e0 t0).trades.getLast?.map Trade.qty) =
        some stL.qty) ∧
    (0 < stL.qty →
      (endClose cfg sym bars stL).cash =
        stL.cash + stL.qty * ((bars.getLast?.getD 0) * (1 - cfg.slippage_pct)) -
          btCommission cfg sym (stL.qty * ((bars.getLast?.getD 0) * (1 - cfg.slippage_pct)))) ∧
    (stL.qty ≤ 0 → (runBT cfg sym strat bars cash e0 t0).trades = stL.trades) := by
  have hinv : entryInv stL := by
    rw [hst]
    exact entryInv_runLoop cfg sym strat bars (barIndices bars)
      (fun hq => absurd hq (lt_irrefl 0))
  have hne : ¬ bars.isEmpty = true := by
    cases bars with
    | nil => exact absurd rfl hbars
    | cons b bs => simp
  have hrun : (runBT cfg sym strat bars cash e0 t0).trades =
      (endClose cfg sym bars stL).trades := by
    rw [hst]
    simp only [runBT, if_neg hne]
  refine ⟨fun hq => ?_, fun hq => ?_, fun hq => ?_, fun hq => ?_⟩
  · rw [hrun]
    simp only [endClose, if_pos (And.intro hq (hinv hq))]
  · rw [hrun]
    simp only [endClose, if_pos (And.intro hq (hinv hq))]
    rw [List.getLast?_concat]
    rfl
  · simp only [endClose, if_pos (And.intro hq (hinv hq)), mkSellTrade]
  · rw [hrun]
    have hg : ¬ (0 < stL.qty ∧ stL.entry_price ≠ none) :=
      fun hc => absurd hc.1 (not_lt.mpr hq)
    simp only [endClose, if_neg hg]

/-- C6 witness: the always-buy run over 21 constant bars ends its loop holding
quantity 2 and the final (force-close) trade liquidates exactly that. -/
theorem force_close_same_model_ends_flat_witness :
    bars21 ≠ [] ∧
    0 < (runLoop BTConfig.defaults "AAPL" alwaysBuy bars21 (barIndices bars21)
      (initState 10000 none none)).qty ∧
    ((runBT BTConfig.defaults "AAPL" alwaysBuy bars21 10000 none none).trades.getLast?.map
        Trade.qty) =
      some (runLoop BTConfig.defaults "AAPL" alwaysBuy bars21 (barIndices bars21)
        (initState 10000 none none)).qty := by
  have hbars : bars21 ≠ [] := by decide
  have hqty : 0 < (runLoop BTConfig.defaults "AAPL" alwaysBuy bars21 (barIndices bars21)
      (initState 10000 none none)).qty := by
    have hidx : barIndices bars21 = [20] := by decide
    have hget : bars21.getD 20 0 = 100 := by decide
    have hcr : btIsCrypto "AAPL" = false := by decide
    rw [hidx]
    simp only [runLoop, barStep, alwaysBuy, initState, hget]
    norm_num [buyUpdate, btCommission, hcr, BTConfig.defaults]
  exact ⟨hbars, hqty,
    (force_close_same_model_ends_flat BTConfig.defaults "AAPL" alwaysBuy bars21
      10000 none none _ rfl hbars).2.1 hqty⟩

/-! ## Claim C8 -/

/-- C8: the backtest run is a pure function of (bars, strategy, config,
starting cash): two runs with identical inputs produce identical
BacktestResults (trade ledger included), whatever entry-price / entry-time
state the engine instance carried over from earlier runs - the only mutable
instance state read by the run loop cannot influence its output. -/
theorem backtest_run_deterministic (cfg : BTConfig) (sym : String)
    (strat : List ℚ → String) (bars : List ℚ) (cash : ℚ)
    (e1 e2 : Option ℚ) (t1 t2 : Option ℕ) :
    runBT cfg sym strat bars cash e1 t1 = runBT cfg sym strat bars cash e2 t2 := by
  by_cases hb : bars.isEmpty
  · simp only [runBT, if_pos hb]
  · have hrel : runRel (initState cash e1 t1) (initState cash e2 t2) :=
      ⟨rfl, rfl, rfl, rfl, Or.inl rfl⟩
    have h := runRel_endClose cfg sym bars
      (runRel_runLoop cfg sym strat bars (barIndices bars) hrel)
    simp only [runBT, if_neg hb, h.1, h.2.1, h.2.2]
